import Mathlib

/-!
Verification of the Sterad SPA caching server (`src/index.ts`) against its
natural-language specification.

The TypeScript source is shallowly embedded: pure server functions become Lean
functions over `String` / `List Char`, the request handlers become pure
functions from an explicit state (memory cache contents, an abstract file
system `String → Bool`) to a result record, and the JavaScript built-ins the
code relies on (`decodeURIComponent`, `decodeURI`, Node's `path.resolve` /
`path.relative` / `path.join`, regular-expression matching) are modelled as
executable Lean functions whose behaviour on the inputs relevant here matches
the built-ins.  Wall-clock concerns (the ReDoS time budget of
`createSafeRegex` / `safeReplace`) are not modelled: the matchers below give
the result the wrapped regex operations return when they finish within the
budget.
-/

namespace Sterad

set_option maxRecDepth 20000

/-! ### Character classes used by the JavaScript regular expressions -/

/-- The single-quote character, kept as a named constant. -/
def sq : Char := Char.ofNat 39

/-- The double-quote character. -/
def dq : Char := '"'

/-- JavaScript word character (regex word boundary class): `[A-Za-z0-9_]`,
written over the code point. -/
def isWordChar (c : Char) : Bool :=
  (97 ≤ c.toNat && c.toNat ≤ 122) || (65 ≤ c.toNat && c.toNat ≤ 90) ||
    (48 ≤ c.toNat && c.toNat ≤ 57) || c.toNat = 95

/-- ASCII letter, the class `[a-z]` under the `i` flag, over the code
point. -/
def isLetter (c : Char) : Bool :=
  (97 ≤ c.toNat && c.toNat ≤ 122) || (65 ≤ c.toNat && c.toNat ≤ 90)

/-- ASCII digit, over the code point. -/
def isDigit (c : Char) : Bool := 48 ≤ c.toNat && c.toNat ≤ 57

/-- Alphanumeric, the class `[a-zA-Z0-9]`. -/
def isAlphaNum (c : Char) : Bool := isLetter c || isDigit c

/-- JavaScript whitespace (`\s`), restricted to the code points occurring in
this development (space, tab, line feed, carriage return, vertical tab, form
feed, no-break space). -/
def isJsWs (c : Char) : Bool :=
  c = ' ' || c = '\t' || c = '\n' || c = '\r' ||
  c = Char.ofNat 11 || c = Char.ofNat 12 || c = Char.ofNat 160

/-- A character matched by the JavaScript regex dot `.` (anything but a line
terminator). -/
def isDotChar (c : Char) : Bool :=
  !(c = '\n' || c = '\r' || c = Char.ofNat 8232 || c = Char.ofNat 8233)

/-- Case-insensitive character comparison, as performed by the `i` regex
flag on the ASCII patterns of the source. -/
def ciChar (c d : Char) : Bool := c.toLower = d.toLower

/-- `ciStarts pat cs` holds when `pat` is a case-insensitive prefix of `cs`. -/
def ciStarts : List Char → List Char → Bool
  | [], _ => true
  | _ :: _, [] => false
  | p :: ps, c :: cs => ciChar p c && ciStarts ps cs

/-- Case-insensitive substring test (`String.prototype.includes` together with
lowercasing, and existence of a match of a literal pattern under the `i`
flag). -/
def ciSub (pat : List Char) : List Char → Bool
  | [] => ciStarts pat []
  | c :: cs => ciStarts pat (c :: cs) || ciSub pat cs

/-- `hasDotDot cs` is `cs.includes("..")`: two consecutive dots occur. -/
def hasDotDot : List Char → Bool
  | c1 :: c2 :: rest => (c1 = '.' && c2 = '.') || hasDotDot (c2 :: rest)
  | _ => false

/-- Exact (case-sensitive) list prefix test. -/
def startsWithL : List Char → List Char → Bool
  | [], _ => true
  | _ :: _, [] => false
  | p :: ps, c :: cs => p = c && startsWithL ps cs

/-- `String.prototype.startsWith`. -/
def strStartsWith (s pre : String) : Bool := startsWithL pre.data s.data

/-- Single-character membership (`String.prototype.includes` for one
character). -/
def hasCharL (ch : Char) : List Char → Bool
  | [] => false
  | c :: cs => c = ch || hasCharL ch cs

/-! ### `decodeURIComponent` / `decodeURI`

Modelled at the byte level: a `%` followed by two hexadecimal digits decodes
to the character with that code, any other occurrence of `%` makes the
built-in throw `URIError` (modelled as `none`), and every other character
passes through unchanged.  (The real built-ins additionally assemble UTF-8
multi-byte sequences; the properties proved here depend only on non-percent
characters passing through unchanged, which holds of both.)  `decodeURI`
differs in leaving the percent-triples of reserved characters in place. -/

/-- Value of a hexadecimal digit, if any (code points 0-9, a-f, A-F). -/
def hexVal (c : Char) : Option Nat :=
  let n := c.toNat
  if 48 ≤ n && n ≤ 57 then some (n - 48)
  else if 97 ≤ n && n ≤ 102 then some (n - 87)
  else if 65 ≤ n && n ≤ 70 then some (n - 55)
  else none

/-- Characters whose escapes `decodeURI` leaves untouched (the URI reserved
set together with `#`). -/
def isUriReserved (c : Char) : Bool :=
  c = ';' || c = '/' || c = '?' || c = ':' || c = '@' || c = '&' ||
  c = '=' || c = '+' || c = '$' || c = ',' || c = '#'

/-- Byte-level model of `decodeURIComponent`; `none` models a thrown
`URIError`. -/
def decodeURIComponentM : List Char → Option (List Char)
  | [] => some []
  | '%' :: h1 :: h2 :: rest =>
    match hexVal h1, hexVal h2 with
    | some v1, some v2 => (decodeURIComponentM rest).map (fun d => Char.ofNat (16 * v1 + v2) :: d)
    | _, _ => none
  | '%' :: _ => none
  | c :: rest => (decodeURIComponentM rest).map (fun d => c :: d)

/-- Byte-level model of `decodeURI`; escapes of reserved characters stay
encoded. -/
def decodeURIM : List Char → Option (List Char)
  | [] => some []
  | '%' :: h1 :: h2 :: rest =>
    match hexVal h1, hexVal h2 with
    | some v1, some v2 =>
      if isUriReserved (Char.ofNat (16 * v1 + v2)) then
        (decodeURIM rest).map (fun d => '%' :: h1 :: h2 :: d)
      else
        (decodeURIM rest).map (fun d => Char.ofNat (16 * v1 + v2) :: d)
    | _, _ => none
  | '%' :: _ => none
  | c :: rest => (decodeURIM rest).map (fun d => c :: d)

/-- `decodeURI` at the `String` level. -/
def decodeURIStr (s : String) : Option String :=
  (decodeURIM s.data).map (fun d => String.mk d)

/-! ### `sanitizePath` (src/index.ts lines 328-372) -/

/-- The bounded decoding loop of `sanitizePath`: decode until a fixed point,
a failure (the `catch` keeps the current value), or `maxIterations = 3`. -/
def decodeLoop : Nat → List Char → List Char
  | 0, s => s
  | n + 1, s =>
    match decodeURIComponentM s with
    | none => s
    | some d => if d = s then s else decodeLoop n d

/-- `cleanPath.replace(/\0/g, "")`. -/
def stripNull (cs : List Char) : List Char := cs.filter (fun c => !(c = Char.ofNat 0))

/-- `cleanPath.replace(/\\/g, "/")`. -/
def backToFwd (cs : List Char) : List Char := cs.map (fun c => if c = '\\' then '/' else c)

/-- Worker for slash collapsing: `prevSlash` records whether the previous
kept character was part of a slash run. -/
def collapseAux : Bool → List Char → List Char
  | _, [] => []
  | prevSlash, c :: cs =>
    if c = '/' then
      if prevSlash then collapseAux true cs else '/' :: collapseAux true cs
    else c :: collapseAux false cs

/-- `cleanPath.replace(/\/+/g, "/")`: collapse runs of slashes. -/
def collapseSlashes (cs : List Char) : List Char := collapseAux false cs

/-- Prepend `/` unless already present. -/
def ensureLeadingSlash (cs : List Char) : List Char :=
  match cs with
  | '/' :: _ => cs
  | _ => '/' :: cs

/-- `slice(0, -1)` on a list of characters. -/
def dropLastL : List Char → List Char
  | [] => []
  | [_] => []
  | c :: cs => c :: dropLastL cs

/-- Last character, if any. -/
def lastCharL : List Char → Option Char
  | [] => none
  | [c] => some c
  | _ :: cs => lastCharL cs

/-- Remove a trailing slash unless the path is just the root. -/
def stripTrailingSlash (cs : List Char) : List Char :=
  if cs.length > 1 && lastCharL cs = some '/' then dropLastL cs else cs

/-- The body of `sanitizePath` on a non-empty input. -/
def sanitizePathL (cs : List Char) : List Char :=
  stripTrailingSlash (ensureLeadingSlash (collapseSlashes (backToFwd (stripNull (decodeLoop 3 cs)))))

/-- `sanitizePath` (src/index.ts lines 328-372).  A falsy input (the empty
string) yields `"/"`. -/
def sanitizePath (s : String) : String :=
  if s = "" then "/" else String.mk (sanitizePathL s.data)

/-! ### The Node `path` module (POSIX), modelled on absolute paths -/

/-- Worker splitting on `/` with an accumulator of the current segment's
characters in reverse. -/
def segsAux : List Char → List Char → List String
  | [], acc => if acc.isEmpty then [] else [String.mk acc.reverse]
  | '/' :: cs, acc =>
    if acc.isEmpty then segsAux cs [] else String.mk acc.reverse :: segsAux cs []
  | c :: cs, acc => segsAux cs (c :: acc)

/-- Split a path into its non-empty segments. -/
def pathSegs (s : String) : List String := segsAux s.data []

/-- Resolve `.` and `..` segments the way `path.resolve` does for an
absolute path (a `..` at the root is dropped). -/
def normalizeSegs (segs : List String) : List String :=
  segs.foldl
    (fun acc seg =>
      if seg = "." then acc
      else if seg = ".." then acc.dropLast
      else acc ++ [seg])
    []

/-- Join segments back into an absolute path. -/
def joinSegs (segs : List String) : String :=
  "/" ++ String.intercalate "/" segs

/-- `path.resolve(base, rel)` with `base` absolute. -/
def resolveP (base rel : String) : String :=
  if strStartsWith rel "/" then joinSegs (normalizeSegs (pathSegs rel))
  else joinSegs (normalizeSegs (pathSegs base ++ pathSegs rel))

/-- `path.resolve(p)` for an absolute `p` (pure normalization). -/
def resolveAbs (p : String) : String := joinSegs (normalizeSegs (pathSegs p))

/-- `path.relative(from, to)` for absolute arguments. -/
def relativeP (fromP toP : String) : String :=
  let f := normalizeSegs (pathSegs fromP)
  let t := normalizeSegs (pathSegs toP)
  let k := (List.zip f t).takeWhile (fun p => p.1 = p.2) |>.length
  String.intercalate "/" ((f.drop k).map (fun _ => "..") ++ t.drop k)

/-- `path.join(base, rel)` for an absolute `base`. -/
def joinP (base rel : String) : String :=
  joinSegs (normalizeSegs (pathSegs base ++ pathSegs rel))

/-! ### `isPathSafe` and the two secure path resolvers
(src/index.ts lines 374-450) -/

/-- `isPathSafe` (src/index.ts lines 374-414).  The `try`/`catch` wrapper is
not modelled: every operation of the body is total here. -/
def isPathSafe (requestedPath allowedBasePath : String) : Bool :=
  let cleanPath := sanitizePath requestedPath
  if hasDotDot cleanPath.data then false
  else
    let relativePath := if strStartsWith cleanPath "/" then cleanPath.drop 1 else cleanPath
    let fullPath := resolveP allowedBasePath relativePath
    let relativeToBased := relativeP allowedBasePath fullPath
    !(strStartsWith relativeToBased "..") && !(hasDotDot relativeToBased.data) &&
      !(strStartsWith (resolveAbs fullPath) "..")

/-- `getSecureStaticFilePath` (src/index.ts lines 416-431), parameterized by
the resolved distribution root `spaDistAbsolute`. -/
def getSecureStaticFilePath (spaDistAbsolute requestedPath : String) : Option String :=
  let cleanPath := sanitizePath requestedPath
  if !(isPathSafe cleanPath spaDistAbsolute) then none
  else
    let relativePath := if strStartsWith cleanPath "/" then cleanPath.drop 1 else cleanPath
    some (joinP spaDistAbsolute relativePath)

/-- The characters `[\/\\:*?"<>|]` replaced by `_` in a cache file name. -/
def isUnsafeFileChar (c : Char) : Bool :=
  c = '/' || c = '\\' || c = ':' || c = '*' || c = '?' || c = dq || c = '<' || c = '>' || c = '|'

/-- `getDiskCacheFilePath` (src/index.ts lines 433-450), parameterized by the
resolved cache root `cacheDirAbsolute`. -/
def getDiskCacheFilePath (cacheDirAbsolute urlPath : String) : Option String :=
  let cleanPath := sanitizePath urlPath
  if !(isPathSafe cleanPath cacheDirAbsolute) then none
  else
    let fileName :=
      if cleanPath = "/" then "index.html"
      else String.mk (((cleanPath.drop 1).data).map (fun c => if isUnsafeFileChar c then '_' else c)) ++ ".html"
    some (joinP cacheDirAbsolute fileName)

/-! ### `compileCachePatterns` and `shouldCachePath`
(src/index.ts lines 452-486)

A pattern without `*` and `?` compiles to `^escaped$` (every regex
metacharacter escaped), which under the `i` flag is a case-insensitive
whole-string comparison.  A pattern with wildcards has every metacharacter
except `*`, `?` and `^` escaped, `*` becomes `.*`, `?` becomes `.`; `^` is
prepended unless the string already starts with one (an unescaped `^` in the
pattern keeps its start-of-input meaning), and `$` is appended unless the
escaped string already ends in `$` — which happens exactly when the pattern
ends in a literal `$`, whose escape `\$` defeats the end anchor.  The empty
pattern list compiles to the regex `^`, `$`, `^` in sequence, which matches at
a position that is simultaneously the start and the end of the input. -/

/-- One token of a compiled route pattern. -/
inductive Tok where
  | lit (c : Char)
  | star
  | one
  | caret
deriving DecidableEq

/-- Tokenization of a wildcard route pattern after escaping. -/
def tokOfChar (c : Char) : Tok :=
  if c = '*' then Tok.star else if c = '?' then Tok.one
  else if c = '^' then Tok.caret else Tok.lit c

/-- `.*` consumption: try the continuation `f` after consuming one or more
dot-matchable characters. -/
def starConsume (f : List Char → Bool) : List Char → Bool
  | [] => false
  | d :: cs => isDotChar d && (f cs || starConsume f cs)

/-- Matcher for a compiled wildcard pattern, anchored at the start.
`anchorEnd` is false when the pattern ended in a literal `$` (see above);
`atStart` tracks whether any character has been consumed, for `^`.  `.*` and
`.` match anything except line terminators. -/
def tmatch (anchorEnd : Bool) : List Tok → Bool → List Char → Bool
  | [], _, cs => if anchorEnd then cs.isEmpty else true
  | Tok.lit c :: ts, _, cs =>
    match cs with
    | [] => false
    | d :: cs2 => ciChar c d && tmatch anchorEnd ts false cs2
  | Tok.one :: ts, _, cs =>
    match cs with
    | [] => false
    | d :: cs2 => isDotChar d && tmatch anchorEnd ts false cs2
  | Tok.caret :: ts, atStart, cs => atStart && tmatch anchorEnd ts atStart cs
  | Tok.star :: ts, atStart, cs =>
    tmatch anchorEnd ts atStart cs || starConsume (tmatch anchorEnd ts false) cs

/-- Test of one compiled route pattern against a path. -/
def patternTest (pattern : String) (s : String) : Bool :=
  if !(hasCharL '*' pattern.data) && !(hasCharL '?' pattern.data) then
    String.mk (pattern.data.map Char.toLower) = String.mk (s.data.map Char.toLower)
  else
    tmatch (!(lastCharL pattern.data = some '$')) (pattern.data.map tokOfChar) true s.data

/-- The test of the regex `^`, `$`, `^` produced for an empty pattern list:
search every position of the input for one that satisfies all three
zero-width assertions (start of input, end of input, start of input). -/
def emptyPatternTest (s : String) : Bool :=
  (List.range (s.length + 1)).any fun i =>
    decide (i = 0) && decide (i = s.length) && decide (i = 0)

/-- `compileCachePatterns(patterns).test(s)` (src/index.ts lines 452-471):
the alternation of the per-pattern regexes, each anchored as above. -/
def compiledTest (patterns : List String) (s : String) : Bool :=
  if patterns.isEmpty then emptyPatternTest s
  else patterns.any (fun p => patternTest p s)

/-- `shouldCachePath` (src/index.ts lines 477-486). -/
def shouldCachePath (cacheRoutes notCacheRoutes : List String) (path : String) : Bool :=
  if path = "/" then cacheRoutes.contains "/"
  else compiledTest cacheRoutes path && !(compiledTest notCacheRoutes path)

/-! ### `isStaticAsset` (src/index.ts lines 913-921) -/

/-- `String.prototype.lastIndexOf` for a single character: the last index of
`c`, or `-1`. -/
def lastIndexOfCh (c : Char) (s : String) : Int :=
  (s.data.foldl (fun (p : Int × Int) d => (p.1 + 1, if d = c then p.1 else p.2)) (0, -1)).2

/-- `isStaticAsset` (src/index.ts lines 913-921). -/
def isStaticAsset (path : String) : Bool :=
  let lastDot := lastIndexOfCh '.' path
  if lastDot = -1 || hasCharL '?' path.data then false
  else
    let lastSlash := lastIndexOfCh '/' path
    let diff : Int := (path.length : Int) - lastDot
    lastDot > lastSlash && diff < 6 && diff > 1

/-! ### Generic regex-style scanners

`scanHit m` is `regex.test`: does the matcher `m` succeed at some position of
the input?  `greplace m` is `String.prototype.replace` with the `g` flag: at
each position, if `m` succeeds it emits the replacement and continues after
the consumed characters, otherwise it copies one character.  `scanMatches m`
is `String.prototype.match` with `g`: the list of matches in order.  Every
matcher reports the number of characters its match consumed. -/

/-- Existence of a match at some position (the end-of-input position
included). -/
def scanHit (m : List Char → Option Nat) : List Char → Bool
  | [] => (m []).isSome
  | c :: cs => (m (c :: cs)).isSome || scanHit m cs

/-- Fuel-indexed worker for `greplace`.  Every matcher used here consumes at
least one character, so with fuel equal to the input length the fuel never
runs out; the fuel only makes the recursion structural. -/
def greplaceF (m : List Char → Option (List Char × Nat)) : Nat → List Char → List Char
  | _, [] => []
  | 0, cs => cs
  | fuel + 1, c :: cs =>
    match m (c :: cs) with
    | some (emit, k) => emit ++ greplaceF m fuel (List.drop (k - 1) cs)
    | none => c :: greplaceF m fuel cs

/-- Global replacement: the matcher returns the emitted characters and the
consumed length. -/
def greplace (m : List Char → Option (List Char × Nat)) (cs : List Char) : List Char :=
  greplaceF m cs.length cs

/-- Fuel-indexed worker for `scanMatches` (same fuel discipline as
`greplaceF`). -/
def scanMatchesF {α : Type} (m : List Char → Option (α × Nat)) : Nat → List Char → List α
  | _, [] => (m []).elim [] (fun p => [p.1])
  | 0, _ => []
  | fuel + 1, c :: cs =>
    match m (c :: cs) with
    | some (a, k) => a :: scanMatchesF m fuel (List.drop (k - 1) cs)
    | none => scanMatchesF m fuel cs

/-- Global match collection: the matcher returns a payload and the consumed
length. -/
def scanMatches {α : Type} (m : List Char → Option (α × Nat)) (cs : List Char) : List α :=
  scanMatchesF m cs.length cs

/-- Scan with a word-boundary requirement before the match (`\b` followed by
a word character): the matcher may only fire where the previous character is
not a word character.  `prevWord` is whether the previous character was one. -/
def boundaryScan (m : List Char → Option Nat) : Bool → List Char → Bool
  | _, [] => false
  | prevWord, c :: cs => (!prevWord && (m (c :: cs)).isSome) || boundaryScan m (isWordChar c) cs

/-- First index of a character, if present. -/
def findChIdx (ch : Char) : List Char → Option Nat
  | [] => none
  | c :: cs => if c = ch then some 0 else (findChIdx ch cs).map (· + 1)

/-- First index of a closing quote reachable by `.` characters only (the
lazy `(.*?)` of the source patterns followed by the backreferenced quote):
`none` when a line terminator intervenes before any closing quote. -/
def findQuoteSameLine (q : Char) : List Char → Option Nat
  | [] => none
  | c :: cs =>
    if c = q then some 0
    else if isDotChar c then (findQuoteSameLine q cs).map (· + 1)
    else none

/-! ### Trust Boundary Validator (src/index.ts lines 488-730)

The four stages return plain `Bool` here; the human-readable reason and the
diagnostic metrics of the source `ValidationResult` only feed `console.warn`
and are dropped. -/

/-- Server configuration fields consumed by the validator, with the tag
ratio as an exact rational (the source compares IEEE doubles; the inputs in
this development stay away from the representation error of `0.7`). -/
structure Config where
  maxContentLength : Nat
  maxTitleLength : Nat
  allowedTags : List String
  maxTagRatio : ℚ

/-- The default `allowed_tags` list (src/index.ts lines 203-246). -/
def defaultAllowedTags : List String :=
  ["div", "span", "p", "h1", "h2", "h3", "h4", "h5", "h6", "a", "img", "ul",
   "ol", "li", "br", "strong", "em", "b", "i", "section", "article", "header",
   "footer", "nav", "main", "table", "tr", "td", "th", "thead", "tbody",
   "tfoot", "form", "input", "button", "label", "select", "option",
   "textarea", "hr"]

/-- The configuration defaults substituted at startup
(src/index.ts lines 196-248). -/
def defaultConfig : Config :=
  { maxContentLength := 1024 * 1024
    maxTitleLength := 200
    allowedTags := defaultAllowedTags
    maxTagRatio := mkRat 7 10 }

/-- `Buffer.byteLength(content, "utf8")`. -/
def utf8ByteLength (s : String) : Nat := (s.data.map Char.utf8Size).sum

/-- Stage 1, `validateContentLength` (src/index.ts lines 500-513). -/
def validateContentLength (cfg : Config) (content : String) : Bool :=
  decide (utf8ByteLength content ≤ cfg.maxContentLength)

/-- One match of the tag tokenizer `<\/?([a-zA-Z][a-zA-Z0-9]*)\b[^>]*>`. -/
structure TagTok where
  closing : Bool
  name : String
  selfSlash : Bool
deriving DecidableEq

/-- Matcher for the tag tokenizer at one position: `<`, optional `/`, a
letter then alphanumerics (the following character must not be a word
character, for `\b`), then anything up to the next `>`.  Returns the token
(name lowercased, as in the source) and the consumed length. -/
def matchTagAt (cs : List Char) : Option (TagTok × Nat) :=
  match cs with
  | '<' :: rest =>
    let closing := match rest with | '/' :: _ => true | _ => false
    let rest1 := if closing then rest.drop 1 else rest
    match rest1 with
    | c :: rest2 =>
      if isLetter c then
        let nameTail := rest2.takeWhile isAlphaNum
        let afterName := rest2.drop nameTail.length
        let bOk := match afterName with | [] => true | d :: _ => !isWordChar d
        if bOk then
          let attrs := afterName.takeWhile (fun x => !(x = '>'))
          match afterName.drop attrs.length with
          | '>' :: _ =>
            let nameLen := 1 + nameTail.length
            let consumed := 1 + (if closing then 1 else 0) + nameLen + attrs.length + 1
            some ({ closing := closing
                    name := String.mk ((c :: nameTail).map Char.toLower)
                    selfSlash := lastCharL (c :: nameTail ++ attrs) = some '/' }, consumed)
          | _ => none
        else none
      else none
    | [] => none
  | _ => none

/-- The `selfClosingTags` list of `validateHtmlStructure`. -/
def selfClosingTags : List String := ["br", "img", "input", "hr", "meta", "link"]

/-- The tag loop of `validateHtmlStructure`: whitelist check, then matching
of closing tags against the stack of open tags (`openTags.pop()` on an empty
stack yields `undefined`, which never equals a tag name). -/
def structureLoop (allowedTags : List String) : List TagTok → List String → Bool
  | [], openTags => openTags.isEmpty
  | t :: ts, openTags =>
    if !(allowedTags.contains t.name) then false
    else if t.closing then
      match openTags with
      | [] => false
      | top :: rest => if top = t.name then structureLoop allowedTags ts rest else false
    else if !t.selfSlash && !(selfClosingTags.contains t.name) then
      structureLoop allowedTags ts (t.name :: openTags)
    else structureLoop allowedTags ts openTags

/-- Stage 2, `validateHtmlStructure` (src/index.ts lines 515-590). -/
def validateHtmlStructure (cfg : Config) (content : String) : Bool :=
  structureLoop cfg.allowedTags (scanMatches matchTagAt content.data) []

/-- Matcher for `<[^>]+>` at one position, returning the consumed length
twice (once as the match payload, once for the scanner). -/
def matchDenseTagAt (cs : List Char) : Option (Nat × Nat) :=
  match cs with
  | '<' :: rest =>
    let inner := rest.takeWhile (fun x => !(x = '>'))
    if inner.isEmpty then none
    else
      match rest.drop inner.length with
      | '>' :: _ => some (inner.length + 2, inner.length + 2)
      | _ => none
  | _ => none

/-- JavaScript `String.prototype.trim` on characters. -/
def trimJsL (cs : List Char) : List Char :=
  ((cs.dropWhile isJsWs).reverse.dropWhile isJsWs).reverse

/-- Stage 3, `validateTagRatio` (src/index.ts lines 592-639): rejects
tags-only content and content whose tag/content character ratio exceeds the
bound. -/
def validateTagRatio (cfg : Config) (content : String) : Bool :=
  let tagLength := (scanMatches matchDenseTagAt content.data).sum
  let text := trimJsL (greplace (fun s => (matchDenseTagAt s).map (fun p => ([], p.2))) content.data)
  let textLength := text.length
  if textLength = 0 then false
  else !(decide (cfg.maxTagRatio < mkRat tagLength (tagLength + textLength)))

/-- Matcher for `<tag[\s\S]*?>[\s\S]*?</tag>` (the script and style pair
patterns) at one position. -/
def scriptPairAt (tag : List Char) (cs : List Char) : Option Nat :=
  if ciStarts ('<' :: tag) cs then
    let rest := cs.drop (1 + tag.length)
    match findChIdx '>' rest with
    | some j =>
      let rest2 := rest.drop (j + 1)
      let closeTag := '<' :: '/' :: (tag ++ ['>'])
      match (List.range (rest2.length + 1)).findIdx? (fun k => ciStarts closeTag (rest2.drop k)) with
      | some k => some (1 + tag.length + j + 1 + k + closeTag.length)
      | none => none
    | none => none
  else none

/-- Matcher for `on[a-z]+=\s*(['\x22])(.*?)\1` (the core of the
event-handler patterns, after the boundary or whitespace prefix). -/
def onCoreAt (cs : List Char) : Option Nat :=
  if ciStarts ['o', 'n'] cs then
    let rest := cs.drop 2
    let letters := rest.takeWhile isLetter
    if letters.isEmpty then none
    else
      match rest.drop letters.length with
      | '=' :: rest2 =>
        let ws := rest2.takeWhile isJsWs
        match rest2.drop ws.length with
        | q :: rest4 =>
          if q = sq || q = dq then
            match findQuoteSameLine q rest4 with
            | some j => some (2 + letters.length + 1 + ws.length + 1 + j + 1)
            | none => none
          else none
        | [] => none
      | _ => none
  else none

/-- Matcher for `(?:href|src)\s*=\s*(['\x22]|)(?:javascript:.*?)\1` after the
boundary: the group may be a quote (which must then be closed on the same
line after `javascript:`) or empty (in which case the lazy tail matches the
empty string immediately). -/
def hrefSrcCoreAt (cs : List Char) : Option Nat :=
  let hn := if ciStarts ['h', 'r', 'e', 'f'] cs then some 4
            else if ciStarts ['s', 'r', 'c'] cs then some 3 else none
  match hn with
  | none => none
  | some n =>
    let rest := cs.drop n
    let ws1 := rest.takeWhile isJsWs
    match rest.drop ws1.length with
    | '=' :: rest2 =>
      let ws2 := rest2.takeWhile isJsWs
      let rest3 := rest2.drop ws2.length
      match rest3 with
      | q :: rest4 =>
        if q = sq || q = dq then
          if ciStarts "javascript:".data rest4 then
            match findQuoteSameLine q (rest4.drop 11) with
            | some j => some (n + ws1.length + 1 + ws2.length + 1 + 11 + j + 1)
            | none => none
          else none
        else if ciStarts "javascript:".data rest3 then
          some (n + ws1.length + 1 + ws2.length + 11)
        else none
      | [] => none
    | _ => none

/-- Matcher for `<tag\b[^>]*>` (iframe, object, embed) at one position. -/
def tagOpenAt (tag : List Char) (cs : List Char) : Option Nat :=
  if ciStarts ('<' :: tag) cs then
    let rest := cs.drop (1 + tag.length)
    let bOk := match rest with | [] => true | d :: _ => !isWordChar d
    if bOk then
      match findChIdx '>' rest with
      | some j => some (1 + tag.length + j + 1)
      | none => none
    else none
  else none

/-- Continuation of the form-action pattern after `action`:
`\s*=\s*(['\x22]?)(?:javascript:|data:)`. -/
def formActionCont (cs : List Char) : Bool :=
  let ws1 := cs.takeWhile isJsWs
  match cs.drop ws1.length with
  | '=' :: rest2 =>
    let ws2 := rest2.takeWhile isJsWs
    match rest2.drop ws2.length with
    | q :: rest4 =>
      if q = sq || q = dq then
        ciStarts "javascript:".data rest4 || ciStarts "data:".data rest4
      else
        ciStarts "javascript:".data (q :: rest4) || ciStarts "data:".data (q :: rest4)
    | [] => false
  | _ => false

/-- Search for `action` with a matching continuation inside the `[^>]*`
region after `<form`. -/
def formScanAction : List Char → Bool
  | [] => false
  | c :: cs =>
    if c = '>' then false
    else (ciStarts "action".data (c :: cs) && formActionCont ((c :: cs).drop 6)) ||
      formScanAction cs

/-- Matcher for `<form\b[^>]*action\s*=\s*(['\x22]?)(?:javascript:|data:)` at
one position (the consumed length is irrelevant to `test` and reported as
1). -/
def formActionAt (cs : List Char) : Option Nat :=
  if ciStarts "<form".data cs then
    let rest := cs.drop 5
    let bOk := match rest with | [] => true | d :: _ => !isWordChar d
    if bOk && formScanAction rest then some 1 else none
  else none

/-- Matcher for `vbscript:` after the boundary. -/
def vbscriptCoreAt (cs : List Char) : Option Nat :=
  if ciStarts "vbscript:".data cs then some 9 else none

/-- Matcher for `data:\s*text/html` after the boundary. -/
def dataHtmlCoreAt (cs : List Char) : Option Nat :=
  if ciStarts "data:".data cs then
    let rest := cs.drop 5
    let ws := rest.takeWhile isJsWs
    if ciStarts "text/html".data (rest.drop ws.length) then some (5 + ws.length + 9)
    else none
  else none

/-- Stage 4, `validateSecurityPatterns` (src/index.ts lines 641-708): the
fixed deny-list, each pattern applied through the safe-regex wrapper. -/
def validateSecurityPatterns (content : String) : Bool :=
  !(scanHit (scriptPairAt "script".data) content.data) &&
  !(scanHit (scriptPairAt "style".data) content.data) &&
  !(boundaryScan onCoreAt false content.data) &&
  !(boundaryScan hrefSrcCoreAt false content.data) &&
  !(scanHit (tagOpenAt "iframe".data) content.data) &&
  !(scanHit (tagOpenAt "object".data) content.data) &&
  !(scanHit (tagOpenAt "embed".data) content.data) &&
  !(scanHit formActionAt content.data) &&
  !(boundaryScan vbscriptCoreAt false content.data) &&
  !(boundaryScan dataHtmlCoreAt false content.data)

/-- `isSafeMainContent` (src/index.ts lines 710-730): the four stages in
order, the first failure rejecting. -/
def isSafeMainContent (cfg : Config) (content : String) : Bool :=
  validateContentLength cfg content &&
  validateHtmlStructure cfg content &&
  validateTagRatio cfg content &&
  validateSecurityPatterns content

/-! ### `sanitizeHtml` (src/index.ts lines 732-761) -/

/-- Matcher for the third sanitizer substitution
`\s+on[a-z]+=\s*(['\x22])(.*?)\1`, replaced by a single space. -/
def eventReplAt (cs : List Char) : Option (List Char × Nat) :=
  match cs with
  | c :: _ =>
    if isJsWs c then
      let run := cs.takeWhile isJsWs
      match onCoreAt (cs.drop run.length) with
      | some k => some ([' '], run.length + k)
      | none => none
    else none
  | [] => none

/-- Continuation of the fourth sanitizer pattern after `href`/`src`:
`\s*=\s*(['\x22]|)` then `javascript:.*?\2`.  Returns the length of the
part belonging to capture group 1 and the full consumed length. -/
def jsHrefContAt (cs : List Char) : Option (Nat × Nat) :=
  let ws1 := cs.takeWhile isJsWs
  match cs.drop ws1.length with
  | '=' :: rest2 =>
    let ws2 := rest2.takeWhile isJsWs
    let rest3 := rest2.drop ws2.length
    let g0 := ws1.length + 1 + ws2.length
    match rest3 with
    | q :: rest4 =>
      if q = sq || q = dq then
        if ciStarts "javascript:".data rest4 then
          match findQuoteSameLine q (rest4.drop 11) with
          | some j => some (g0 + 1, g0 + 1 + 11 + j + 1)
          | none => none
        else none
      else if ciStarts "javascript:".data (q :: rest4) then some (g0, g0 + 11)
      else none
    | [] => none
  | _ => none

/-- Candidate search for the fourth sanitizer pattern: the greedy `[^>]+`
backtracks from the longest prefix, so the rightmost `href`/`src` with a
matching continuation wins.  `i` is the candidate offset into the text after
`<` (at least 1, for the `+`). -/
def jsHrefTry (rest : List Char) : Nat → Option (List Char × Nat)
  | 0 => none
  | i + 1 =>
    let sub := rest.drop (i + 1)
    let hn := if ciStarts ['h', 'r', 'e', 'f'] sub then some 4
              else if ciStarts ['s', 'r', 'c'] sub then some 3 else none
    match hn with
    | some n =>
      match jsHrefContAt (sub.drop n) with
      | some (g1, full) =>
        some ('<' :: (rest.take (i + 1 + n + g1) ++ ['#']), 1 + (i + 1) + n + full)
      | none => jsHrefTry rest i
    | none => jsHrefTry rest i

/-- Matcher for the fourth sanitizer substitution
`(<[^>]+(?:href|src)\s*=\s*(['\x22]|))javascript:.*?\2` with replacement
`$1#`. -/
def jsHrefReplAt (cs : List Char) : Option (List Char × Nat) :=
  match cs with
  | '<' :: rest => jsHrefTry rest (rest.takeWhile (fun c => !(c = '>'))).length
  | _ => none

/-- `sanitizeHtml` (src/index.ts lines 732-761): script pairs and style
pairs removed, whitespace-led event handlers replaced by a space,
`javascript:` URI values in `href`/`src` rewritten to `#`, then `trim`. -/
def sanitizeHtml (content : String) : String :=
  let r1 := greplace (fun s => (scriptPairAt "script".data s).map (fun k => ([], k))) content.data
  let r2 := greplace (fun s => (scriptPairAt "style".data s).map (fun k => ([], k))) r1
  let r3 := greplace eventReplAt r2
  let r4 := greplace jsHrefReplAt r3
  String.mk (trimJsL r4)

/-! ### Memory cache (src/index.ts lines 312-325)

A JavaScript `Map` preserves insertion order; it is modelled as an
association list whose head is the oldest entry.  `addToMemoryCache` deletes
an existing key first, so its `set` always appends at the most-recent end;
when the size exceeds the limit the first key in insertion order
(`keys().next().value`) is deleted. -/

/-- Association-list model of the `Map`.  Keys are unique in every reachable
state (proved below), so deletion by filtering matches `Map.delete`. -/
abbrev MapL (α : Type) : Type := List (String × α)

/-- `Map.has`. -/
def hasKeyM {α : Type} (m : MapL α) (k : String) : Bool :=
  (m : List (String × α)).any (fun e => e.1 = k)

/-- `Map.get`. -/
def lookupM {α : Type} (m : MapL α) (k : String) : Option α :=
  ((m : List (String × α)).find? (fun e => e.1 = k)).map Prod.snd

/-- `Map.delete`. -/
def deleteM {α : Type} (m : MapL α) (k : String) : MapL α :=
  (m : List (String × α)).filter (fun e => !(e.1 = k))

/-- `addToMemoryCache` (src/index.ts lines 314-325); the second component is
the evicted key, if any. -/
def addToMemoryCache {α : Type} (limit : Nat) (m : MapL α) (k : String) (v : α) :
    MapL α × Option String :=
  let m1 := if hasKeyM m k then deleteM m k else m
  let m2 : MapL α := m1 ++ [(k, v)]
  if (m2 : List (String × α)).length > limit then
    match m2 with
    | [] => (m2, none)
    | e :: rest => (rest, some e.1)
  else (m2, none)

/-- An operation on the memory cache: an insertion through
`addToMemoryCache`, or a read through `Map.get` (the GET handler's
memory-cache hit, src/index.ts lines 982-988, which does not reorder). -/
inductive CacheOp where
  | add (k : String) (v : String)
  | get (k : String)
deriving DecidableEq

/-- Run a sequence of cache operations from a starting state. -/
def runCacheOps (limit : Nat) (ops : List CacheOp) (m : MapL String) : MapL String :=
  ops.foldl
    (fun st o =>
      match o with
      | CacheOp.add k v => (addToMemoryCache limit st k v).1
      | CacheOp.get _ => st)
    m

/-- Whether an operation touches a key (inserts it or reads it). -/
def opTouches (o : CacheOp) (k : String) : Bool :=
  match o with
  | CacheOp.add k2 _ => k2 = k
  | CacheOp.get k2 => k2 = k

/-- Modelled from the spec: the 1-based index of the last operation in the
history that touched the key (0 when never touched). -/
def lastTouchIdx (ops : List CacheOp) (k : String) : Nat :=
  ops.enum.foldl (fun acc p => if opTouches p.2 k then p.1 + 1 else acc) 0

/-- Modelled from the spec: the least-recently-touched key among a set of
keys, given the operation history — the key whose last touch is earliest. -/
def leastRecentlyTouched (ops : List CacheOp) (keys : List String) : Option String :=
  match keys with
  | [] => none
  | k :: ks =>
    some (ks.foldl (fun best k2 =>
      if lastTouchIdx ops k2 < lastTouchIdx ops best then k2 else best) k)

/-! ### Bot classifier (src/index.ts lines 923-964) -/

/-- The substring bot signatures (every pattern of `botPatterns` except
`bot\b` is a plain case-insensitive substring test). -/
def botSubstrings : List String :=
  ["googlebot", "bingbot", "slurp", "duckduckbot", "baiduspider", "yandexbot",
   "facebookexternalhit", "twitterbot", "linkedinbot", "whatsapp",
   "telegrambot", "ahrefsbot", "semrushbot", "mj12bot", "dotbot", "rogerbot",
   "exabot", "facebot", "ia_archiver", "crawler", "spider", "scraper",
   "curl", "wget", "python-requests", "node-fetch", "axios"]

/-- The pattern `bot\b`: `bot` followed by a word boundary. -/
def botWordAt (cs : List Char) : Option Nat :=
  if ciStarts ['b', 'o', 't'] cs then
    match cs.drop 3 with
    | [] => some 3
    | d :: _ => if isWordChar d then none else some 3
  else none

/-- `isCrawlerOrBot` (src/index.ts lines 924-964). -/
def isCrawlerOrBot (userAgent : String) : Bool :=
  if userAgent = "" then false
  else
    botSubstrings.any (fun p => ciSub p.data userAgent.data) ||
      scanHit botWordAt userAgent.data

/-! ### HTTP surface -/

/-- A response as far as the claims observe it: status, body and headers
(`new Response(body, { headers })` has status 200). -/
structure HttpResponse where
  status : Nat
  body : String
  headers : List (String × String)
deriving DecidableEq

/-- The `Content-Security-Policy` value (apostrophes built explicitly). -/
def cspValue : String :=
  "default-src " ++ sq.toString ++ "self" ++ sq.toString ++ "; script-src " ++
    sq.toString ++ "self" ++ sq.toString ++ " " ++ sq.toString ++
    "unsafe-inline" ++ sq.toString

/-- The fixed security header set (src/index.ts lines 165-171). -/
def securityHeadersL : List (String × String) :=
  [("Content-Security-Policy", cspValue),
   ("X-Content-Type-Options", "nosniff"),
   ("X-Frame-Options", "DENY"),
   ("Strict-Transport-Security", "max-age=63072000")]

/-- The constant body used for every capture-endpoint response. -/
def captureBody : String := "Content captured and cached successfully"

/-- The constant 200 response of the capture endpoint. -/
def captureResponse : HttpResponse :=
  { status := 200, body := captureBody, headers := securityHeadersL }

/-- The 401 response of the DELETE branch (src/index.ts lines 1196-1205). -/
def unauthorizedResponse : HttpResponse :=
  { status := 401
    body := "Unauthorized"
    headers := securityHeadersL ++ [("WWW-Authenticate", "Bearer")] }

/-! ### JWT validation (src/index.ts lines 113-161) -/

/-- The JWT configuration loaded from the environment. -/
structure JWTConfig where
  secret : String
  issuer : String
  audience : String

/-- `validateBearerToken` (src/index.ts lines 138-161).  `verify` abstracts
`jwt.verify` with the configured secret, issuer and audience: it holds of a
token exactly when verification does not throw. -/
def validateBearerToken (verify : String → Bool) (authHeader : Option String)
    (jwtConfig : Option JWTConfig) : Bool :=
  match jwtConfig with
  | none => false
  | some _ =>
    match authHeader with
    | none => false
    | some h => if !(strStartsWith h "Bearer ") then false else verify (h.drop 7)

/-! ### JSON values from untrusted request bodies -/

/-- A JavaScript value as observed by the handlers' `typeof` checks and
truthiness tests. -/
inductive JsValue where
  | str (s : String)
  | num (n : Int)
  | boolean (b : Bool)
  | null
  | undefined
  | object
  | array
deriving DecidableEq

/-- JavaScript truthiness (`!x` is `!(truthy x)`). -/
def truthy : JsValue → Bool
  | JsValue.str s => !(s = "")
  | JsValue.num n => !(n = 0)
  | JsValue.boolean b => b
  | JsValue.null => false
  | JsValue.undefined => false
  | JsValue.object => true
  | JsValue.array => true

/-- `typeof x === "string"`. -/
def isStringV : JsValue → Bool
  | JsValue.str _ => true
  | _ => false

/-- The string carried by a `str` value (only consulted after `isStringV`). -/
def strOf : JsValue → String
  | JsValue.str s => s
  | _ => ""

/-- The destructured fields `{title, content, path}` of a parsed POST body
(destructuring a missing field yields `undefined`). -/
structure PostBody where
  title : JsValue
  content : JsValue
  path : JsValue

/-! ### The request handlers (src/index.ts lines 966-1248)

Each handler is a pure function of the request data and an explicit state:
the memory cache contents and an abstract file system `fs : String → Bool`
(existence of a file).  Serving a `BunFile` whose underlying file does not
exist yields Bun's automatic 404, modelled in the status computation. -/

/-- The serving-mode enum. -/
inductive ServeMode where
  | crawlersOnly
  | allClients
deriving DecidableEq

/-- What the GET handler responded with. -/
inductive GetBody where
  | fileBody (filePath : String)
  | shellPlain
  | shellWithCapture
  | notFoundBody
deriving DecidableEq

/-- Result of the GET handler: response classification and the memory cache
afterwards. -/
structure GetResult where
  status : Nat
  body : GetBody
  mem : MapL String
deriving DecidableEq

/-- The status of serving a `BunFile`: 200 when the file exists, Bun's
automatic 404 when it does not. -/
def fileStatus (fs : String → Bool) (filePath : String) : Nat :=
  if fs filePath then 200 else 404

/-- The GET branch of `fetch` (src/index.ts lines 974-1061).  `path` is the
already-`decodeURI`-decoded pathname and `limit` the memory cache limit. -/
def handleGet (spaAbs cacheAbs : String) (mode : ServeMode)
    (cacheRoutes notCacheRoutes : List String) (limit : Nat)
    (fs : String → Bool) (mem : MapL String) (path userAgent : String) : GetResult :=
  let isBot := isCrawlerOrBot userAgent
  let shouldServeCached := mode = ServeMode.allClients || (mode = ServeMode.crawlersOnly && isBot)
  match shouldServeCached, lookupM mem path with
  | true, some filePath =>
    { status := fileStatus fs filePath, body := GetBody.fileBody filePath, mem := mem }
  | _, _ =>
    if isStaticAsset path then
      match getSecureStaticFilePath spaAbs path with
      | none => { status := 404, body := GetBody.notFoundBody, mem := mem }
      | some filePath =>
        let mem2 := if fs filePath then (addToMemoryCache limit mem path filePath).1 else mem
        { status := fileStatus fs filePath, body := GetBody.fileBody filePath, mem := mem2 }
    else
      let isCacheableRoute := shouldCachePath cacheRoutes notCacheRoutes path
      let diskHit :=
        if shouldServeCached && isCacheableRoute then
          match getDiskCacheFilePath cacheAbs path with
          | some diskFile => if fs diskFile then some diskFile else none
          | none => none
        else none
      match diskHit with
      | some diskFile =>
        { status := 200, body := GetBody.fileBody diskFile
          mem := (addToMemoryCache limit mem path diskFile).1 }
      | none =>
        if !isCacheableRoute then
          { status := 200, body := GetBody.shellPlain, mem := mem }
        else if shouldServeCached then
          { status := 200, body := GetBody.shellWithCapture, mem := mem }
        else
          { status := 200, body := GetBody.shellPlain, mem := mem }

/-- The internal outcome of a POST capture (observable in logs and disk
effects, never in the response). -/
inductive CaptureOutcome where
  | parseFailed
  | rejectedFields
  | rejectedTitle
  | rejectedPath
  | rejectedUnsafe
  | decodeFailed
  | blockedWrite (path : String)
  | wrote (filePath : String) (html : String)
deriving DecidableEq

/-- Result of the POST handler: the response and the internal outcome (a
`wrote` outcome is the only disk write). -/
structure PostResult where
  resp : HttpResponse
  outcome : CaptureOutcome
deriving DecidableEq

/-- The POST `/__sterad_capture` branch of `fetch` (src/index.ts lines
1064-1187).  `body` is `none` when `request.json()` throws (invalid JSON, or
destructuring a nullish value).  `buildHtml shell title content` abstracts
the splice of the sanitized content into the SPA shell and the
entity-escaped title substitution (lines 1118-1146); `intercept` abstracts
`executeInterceptScript`.  Neither influences anything a claim observes. -/
def handlePostCapture (cfg : Config) (cacheAbs : String) (shell : String)
    (buildHtml : String → String → String → String)
    (intercept : String → String) (body : Option PostBody) : PostResult :=
  match body with
  | none => { resp := captureResponse, outcome := CaptureOutcome.parseFailed }
  | some b =>
    if !(isStringV b.title) || !(truthy b.content) || !(isStringV b.content) then
      { resp := captureResponse, outcome := CaptureOutcome.rejectedFields }
    else if (strOf b.title).length > cfg.maxTitleLength then
      { resp := captureResponse, outcome := CaptureOutcome.rejectedTitle }
    else if !(truthy b.path) || !(isStringV b.path) then
      { resp := captureResponse, outcome := CaptureOutcome.rejectedPath }
    else if !(isSafeMainContent cfg (strOf b.content)) then
      { resp := captureResponse, outcome := CaptureOutcome.rejectedUnsafe }
    else
      let sanitized := sanitizeHtml (strOf b.content)
      match decodeURIStr (strOf b.path) with
      | none => { resp := captureResponse, outcome := CaptureOutcome.decodeFailed }
      | some decodedPath =>
        match getDiskCacheFilePath cacheAbs decodedPath with
        | some diskFile =>
          { resp := captureResponse
            outcome := CaptureOutcome.wrote diskFile
              (intercept (buildHtml shell (strOf b.title) sanitized)) }
        | none =>
          { resp := captureResponse, outcome := CaptureOutcome.blockedWrite decodedPath }

/-- Result of the DELETE handler: the response, the memory cache afterwards,
and the disk file deleted, if any. -/
structure DeleteResult where
  resp : HttpResponse
  mem : MapL String
  diskDelete : Option String
deriving DecidableEq

/-- The DELETE `/__sterad_capture` branch of `fetch` (src/index.ts lines
1189-1236).  The memory-cache delete uses the raw body path; the disk path
goes through `decodeURI` (whose failure throws into the `catch` after the
memory delete already happened). -/
def handleDelete (verify : String → Bool) (jwtConfig : Option JWTConfig)
    (cacheAbs : String) (authHeader : Option String) (body : Option JsValue)
    (fs : String → Bool) (mem : MapL String) : DeleteResult :=
  if !(validateBearerToken verify authHeader jwtConfig) then
    { resp := unauthorizedResponse, mem := mem, diskDelete := none }
  else
    match body with
    | none => { resp := captureResponse, mem := mem, diskDelete := none }
    | some p =>
      if !(truthy p) || !(isStringV p) then
        { resp := captureResponse, mem := mem, diskDelete := none }
      else
        let mem2 := deleteM mem (strOf p)
        match decodeURIStr (strOf p) with
        | none => { resp := captureResponse, mem := mem2, diskDelete := none }
        | some decodedPath =>
          match getDiskCacheFilePath cacheAbs decodedPath with
          | some diskFile =>
            { resp := captureResponse, mem := mem2
              diskDelete := if fs diskFile then some diskFile else none }
          | none => { resp := captureResponse, mem := mem2, diskDelete := none }

/-! ## Theorems

### Preservation of `..` through `sanitizePath` (claim C1) -/

theorem hasDotDot_cons (c : Char) (cs : List Char) (h : hasDotDot cs = true) :
    hasDotDot (c :: cs) = true := by
  cases cs with
  | nil => simp [hasDotDot] at h
  | cons d ds => simp [hasDotDot, h]

theorem hexVal_ne_dot (c : Char) (v : Nat) (h : hexVal c = some v) : c ≠ '.' := by
  intro hc
  subst hc
  simp [hexVal] at h

theorem decodeM_preserves : ∀ (s d : List Char), decodeURIComponentM s = some d →
    hasDotDot s = true → hasDotDot d = true := by
  intro s
  induction s using decodeURIComponentM.induct with
  | case1 =>
    intro d _ h
    simp [hasDotDot] at h
  | case2 h1 h2 rest v1 v2 hvb hva ih =>
    intro d hd h
    simp only [decodeURIComponentM, hva, hvb] at hd
    match hrest : decodeURIComponentM rest with
    | none => rw [hrest] at hd; simp at hd
    | some dr =>
      rw [hrest] at hd
      simp only [Option.map_some', Option.some.injEq] at hd
      have hne1 : ¬(h1 = '.') := hexVal_ne_dot h1 v1 hva
      have hne2 : ¬(h2 = '.') := hexVal_ne_dot h2 v2 hvb
      have hrest2 : hasDotDot rest = true := by
        simp only [hasDotDot, Bool.or_eq_true, Bool.and_eq_true, decide_eq_true_eq] at h
        rcases h with h | h
        · exact absurd h.1 (by decide)
        · cases rest with
          | nil =>
            simp only [hasDotDot, Bool.or_eq_true, Bool.and_eq_true, decide_eq_true_eq] at h
            rcases h with h | h
            · exact absurd h.1 hne1
            · simp at h
          | cons r rs =>
            simp only [hasDotDot, Bool.or_eq_true, Bool.and_eq_true, decide_eq_true_eq] at h ⊢
            rcases h with h | h
            · exact absurd h.1 hne1
            · rcases h with h | h
              · exact absurd h.1 hne2
              · exact h
      have := ih dr hrest hrest2
      rw [← hd]
      exact hasDotDot_cons _ _ this
  | case3 h1 h2 rest hmatch =>
    intro d hd h
    simp only [decodeURIComponentM] at hd
    exact absurd hd (by simp)
  | case4 rest hne =>
    intro d hd _
    simp only [decodeURIComponentM] at hd
    exact absurd hd (by simp)
  | case5 c rest hne1 hne2 ih =>
    intro d hd h
    simp only [decodeURIComponentM] at hd
    match hrest : decodeURIComponentM rest with
    | none => rw [hrest] at hd; simp at hd
    | some dr =>
      rw [hrest] at hd
      simp only [Option.map_some', Option.some.injEq] at hd
      rw [← hd]
      cases rest with
      | nil => simp [hasDotDot] at h
      | cons r rs =>
        simp only [hasDotDot, Bool.or_eq_true, Bool.and_eq_true, decide_eq_true_eq] at h
        rcases h with h | h
        · have hr : decodeURIComponentM (r :: rs) = some dr := hrest
          have hrdot : r = '.' := h.2
          subst hrdot
          simp only [decodeURIComponentM] at hr
          match hrs : decodeURIComponentM rs with
          | none => rw [hrs] at hr; simp at hr
          | some drs =>
            rw [hrs] at hr
            simp only [Option.map_some', Option.some.injEq] at hr
            rw [← hr, h.1]
            simp [hasDotDot]
        · have := ih dr hrest h
          exact hasDotDot_cons _ _ this

theorem decodeLoop_preserves : ∀ (n : Nat) (s : List Char), hasDotDot s = true →
    hasDotDot (decodeLoop n s) = true := by
  intro n
  induction n with
  | zero => intro s h; simpa [decodeLoop] using h
  | succ n ih =>
    intro s h
    simp only [decodeLoop]
    match hdec : decodeURIComponentM s with
    | none => exact h
    | some d =>
      by_cases hds : d = s
      · simp [hds, h]
      · simp only [if_neg hds]
        exact ih d (decodeM_preserves s d hdec h)

theorem stripNull_preserves : ∀ (cs : List Char), hasDotDot cs = true →
    hasDotDot (stripNull cs) = true := by
  intro cs
  induction cs with
  | nil => intro h; simp [hasDotDot] at h
  | cons c cs ih =>
    intro h
    cases cs with
    | nil => simp [hasDotDot] at h
    | cons d ds =>
      simp only [hasDotDot, Bool.or_eq_true, Bool.and_eq_true, decide_eq_true_eq] at h
      rcases h with h | h
      · rw [h.1, h.2]
        simp only [stripNull, List.filter_cons]
        norm_num
        simp [hasDotDot]
      · have ihr := ih h
        simp only [stripNull, List.filter_cons] at ihr ⊢
        by_cases hc : (!(c = Char.ofNat 0)) = true
        · simp only [hc, if_true]
          exact hasDotDot_cons _ _ ihr
        · simp only [hc, if_false]
          exact ihr

theorem backToFwd_preserves : ∀ (cs : List Char), hasDotDot cs = true →
    hasDotDot (backToFwd cs) = true := by
  intro cs
  induction cs with
  | nil => intro h; simp [hasDotDot] at h
  | cons c cs ih =>
    intro h
    cases cs with
    | nil => simp [hasDotDot] at h
    | cons d ds =>
      simp only [hasDotDot, Bool.or_eq_true, Bool.and_eq_true, decide_eq_true_eq] at h
      rcases h with h | h
      · rw [h.1, h.2]
        simp [backToFwd, hasDotDot]
      · have ihr := ih h
        simp only [backToFwd, List.map_cons] at ihr ⊢
        exact hasDotDot_cons _ _ ihr

theorem collapseAux_preserves : ∀ (cs : List Char) (b : Bool), hasDotDot cs = true →
    hasDotDot (collapseAux b cs) = true := by
  intro cs
  induction cs with
  | nil => intro b h; simp [hasDotDot] at h
  | cons c cs ih =>
    intro b h
    cases cs with
    | nil => simp [hasDotDot] at h
    | cons d ds =>
      simp only [hasDotDot, Bool.or_eq_true, Bool.and_eq_true, decide_eq_true_eq] at h
      rcases h with h | h
      · obtain ⟨h1, h2⟩ := h
        subst h1
        subst h2
        show hasDotDot (collapseAux b ('.' :: '.' :: ds)) = true
        simp only [collapseAux, if_neg (by decide : ¬('.' = '/'))]
        simp [hasDotDot]
      · have ihr := ih b h
        by_cases hc : c = '/'
        · subst hc
          simp only [collapseAux, if_pos rfl]
          by_cases hb : b = true
          · subst hb
            simp only [if_pos rfl]
            exact ih true h
          · have hb2 : b = false := by
              cases b
              · rfl
              · exact absurd rfl hb
            subst hb2
            simp only [Bool.false_eq_true, if_false]
            exact hasDotDot_cons _ _ (ih true h)
        · simp only [collapseAux, if_neg hc]
          exact hasDotDot_cons _ _ (ih false h)

theorem collapseSlashes_preserves (cs : List Char) (h : hasDotDot cs = true) :
    hasDotDot (collapseSlashes cs) = true :=
  collapseAux_preserves cs false h

theorem ensureLeadingSlash_preserves : ∀ (cs : List Char), hasDotDot cs = true →
    hasDotDot (ensureLeadingSlash cs) = true := by
  intro cs h
  match cs with
  | '/' :: rest => exact h
  | [] => simp [hasDotDot] at h
  | c :: rest =>
    simp only [ensureLeadingSlash]
    split
    · exact h
    · exact hasDotDot_cons _ _ h

theorem dropLastL_preserves : ∀ (cs : List Char), hasDotDot cs = true →
    lastCharL cs = some '/' → hasDotDot (dropLastL cs) = true := by
  intro cs
  induction cs with
  | nil => intro h _; simp [hasDotDot] at h
  | cons c cs ih =>
    intro h hlast
    cases cs with
    | nil =>
      simp [hasDotDot] at h
    | cons d ds =>
      have hlast2 : lastCharL (d :: ds) = some '/' := by
        simpa [lastCharL] using hlast
      simp only [hasDotDot, Bool.or_eq_true, Bool.and_eq_true, decide_eq_true_eq] at h
      rcases h with h | h
      · obtain ⟨h1, h2⟩ := h
        subst h1
        subst h2
        cases ds with
        | nil => simp [lastCharL] at hlast2
        | cons e es =>
          show hasDotDot (dropLastL ('.' :: '.' :: e :: es)) = true
          simp [dropLastL, hasDotDot]
      · have := ih h hlast2
        show hasDotDot (dropLastL (c :: d :: ds)) = true
        simp only [dropLastL]
        exact hasDotDot_cons _ _ this

theorem stripTrailingSlash_preserves : ∀ (cs : List Char), hasDotDot cs = true →
    hasDotDot (stripTrailingSlash cs) = true := by
  intro cs h
  simp only [stripTrailingSlash]
  by_cases hcond : (cs.length > 1 && lastCharL cs = some '/') = true
  · simp only [hcond, if_true]
    have hlast : lastCharL cs = some '/' := by
      simp only [Bool.and_eq_true, decide_eq_true_eq] at hcond
      exact hcond.2
    exact dropLastL_preserves cs h hlast
  · simp only [hcond, if_false]
    exact h

theorem sanitizePathL_preserves : ∀ (cs : List Char), hasDotDot cs = true →
    hasDotDot (sanitizePathL cs) = true := by
  intro cs h
  exact stripTrailingSlash_preserves _ (ensureLeadingSlash_preserves _
    (collapseSlashes_preserves _ (backToFwd_preserves _ (stripNull_preserves _
      (decodeLoop_preserves 3 cs h)))))

theorem sanitizePath_preserves (s : String) (h : hasDotDot s.data = true) :
    hasDotDot (sanitizePath s).data = true := by
  have hne : ¬(s = "") := by
    intro he
    subst he
    simp [hasDotDot] at h
  simp only [sanitizePath, if_neg hne]
  exact sanitizePathL_preserves s.data h

/-- Claim C1: for every URL path whose sanitized form (iteratively
percent-decoded up to 3 times, null-byte-stripped, slash-normalized — that
is, `sanitizePath`) still contains a `..` sequence, `getDiskCacheFilePath`
returns null, whatever the cache root is; so no disk cache file is resolved
(hence none is read, written or deleted) for that path. -/
theorem C1_diskCachePath_dotdot_none (cacheDirAbsolute urlPath : String)
    (h : hasDotDot (sanitizePath urlPath).data = true) :
    getDiskCacheFilePath cacheDirAbsolute urlPath = none := by
  have hsafe : isPathSafe (sanitizePath urlPath) cacheDirAbsolute = false := by
    simp only [isPathSafe]
    rw [sanitizePath_preserves (sanitizePath urlPath) h]
    simp
  simp only [getDiskCacheFilePath, hsafe]
  simp

/-- Witness for C1 at the double-encoded traversal path `/%252e%252e/x`
(which sanitizes to `/../x`). -/
theorem C1_witness :
    hasDotDot (sanitizePath "/%252e%252e/x").data = true ∧
      getDiskCacheFilePath "/app/dist/.sterad__cache" "/%252e%252e/x" = none :=
  ⟨by decide, C1_diskCachePath_dotdot_none "/app/dist/.sterad__cache" "/%252e%252e/x" (by decide)⟩

/-! ### Claims C2, C10 (POST capture), C9, C5 (DELETE authentication) -/

/-- Claim C2: every POST to `/__sterad_capture` yields the same response —
status 200 with the fixed body and the fixed security headers — regardless
of parse failure, field rejection, title length, validation outcome, path
blocking or a successful write; so any two capture POSTs are
indistinguishable on the wire. -/
theorem C2_post_response_constant (cfg : Config) (cacheAbs shell : String)
    (buildHtml : String → String → String → String) (intercept : String → String)
    (body : Option PostBody) :
    (handlePostCapture cfg cacheAbs shell buildHtml intercept body).resp = captureResponse := by
  cases body with
  | none => rfl
  | some b =>
    simp only [handlePostCapture]
    repeat' split
    all_goals rfl

/-- Claim C10: a POST whose `content` field is the empty string is rejected
by the same early branch as a missing field (`!content` is true of `""`):
the outcome is `rejectedFields`, reached before the Trust Boundary Validator
and before any disk write, and the response is the constant success
response. -/
theorem C10_empty_content_rejected_early (cfg : Config) (cacheAbs shell : String)
    (buildHtml : String → String → String → String) (intercept : String → String)
    (title : String) (pathValue : JsValue) :
    handlePostCapture cfg cacheAbs shell buildHtml intercept
        (some { title := JsValue.str title, content := JsValue.str "", path := pathValue }) =
      { resp := captureResponse, outcome := CaptureOutcome.rejectedFields } := by
  simp [handlePostCapture, isStringV, truthy]

/-- Claim C9: with no JWT secret in the environment (`jwtConfig = null`),
`validateBearerToken` rejects every Authorization header, so every DELETE —
whatever its token — gets a 401 and no state changes (default denial, never
a permissive fallback). -/
theorem C9_no_jwt_default_denial :
    (∀ (verify : String → Bool) (authHeader : Option String),
      validateBearerToken verify authHeader none = false) ∧
    (∀ (verify : String → Bool) (cacheAbs : String) (authHeader : Option String)
        (body : Option JsValue) (fs : String → Bool) (mem : MapL String),
      (handleDelete verify none cacheAbs authHeader body fs mem).resp.status = 401 ∧
      (handleDelete verify none cacheAbs authHeader body fs mem).mem = mem ∧
      (handleDelete verify none cacheAbs authHeader body fs mem).diskDelete = none) := by
  refine ⟨fun verify authHeader => rfl, fun verify cacheAbs authHeader body fs mem => ?_⟩
  exact ⟨rfl, rfl, rfl⟩

/-- Claim C5: a DELETE whose bearer credential is absent or invalid (that
is, `validateBearerToken` rejects it) gets status 401 with a
`WWW-Authenticate: Bearer` header, and neither the memory cache nor any disk
cache file is touched. -/
theorem C5_delete_unauthenticated (verify : String → Bool)
    (jwtConfig : Option JWTConfig) (cacheAbs : String) (authHeader : Option String)
    (body : Option JsValue) (fs : String → Bool) (mem : MapL String)
    (h : validateBearerToken verify authHeader jwtConfig = false) :
    handleDelete verify jwtConfig cacheAbs authHeader body fs mem =
      { resp := unauthorizedResponse, mem := mem, diskDelete := none } ∧
    unauthorizedResponse.status = 401 ∧
    ("WWW-Authenticate", "Bearer") ∈ unauthorizedResponse.headers := by
  refine ⟨?_, rfl, by simp [unauthorizedResponse, securityHeadersL]⟩
  simp [handleDelete, h]

/-- Witness for C5: a syntactically well-formed bearer token that fails
verification, against a configured JWT secret. -/
theorem C5_witness :
    validateBearerToken (fun _ => false) (some "Bearer forged")
        (some { secret := "0123456789abcdef0123456789abcdef", issuer := "sterad",
                audience := "sterad-admin" }) = false ∧
      handleDelete (fun _ => false)
          (some { secret := "0123456789abcdef0123456789abcdef", issuer := "sterad",
                  audience := "sterad-admin" })
          "/app/dist/.sterad__cache" (some "Bearer forged") (some (JsValue.str "/page"))
          (fun _ => true) [("/page", "/app/dist/.sterad__cache/page.html")] =
        { resp := unauthorizedResponse
          mem := [("/page", "/app/dist/.sterad__cache/page.html")]
          diskDelete := none } :=
  ⟨rfl,
    (C5_delete_unauthenticated (fun _ => false)
      (some { secret := "0123456789abcdef0123456789abcdef", issuer := "sterad",
              audience := "sterad-admin" })
      "/app/dist/.sterad__cache" (some "Bearer forged") (some (JsValue.str "/page"))
      (fun _ => true) [("/page", "/app/dist/.sterad__cache/page.html")] rfl).1⟩

/-! ### Claim C8 (empty pattern list) and claim C7 (`shouldCachePath`) -/

/-- Counterexample to claim C8: the regex compiled for an empty pattern list
does match the empty string (all three zero-width assertions hold at
position 0 of `""`), refuting "for every string s, including the empty
string, the compiled matcher's test of s returns false". -/
theorem C8_counterexample : compiledTest [] "" = true := by decide

/-- Claim C8 as amended: the matcher compiled from an empty pattern list
matches exactly the empty string — every non-empty string is rejected, but
the empty string is accepted. -/
theorem C8_empty_patterns_match_only_empty (s : String) :
    compiledTest [] s = true ↔ s = "" := by
  have h0 : compiledTest [] s = emptyPatternTest s := rfl
  rw [h0]
  unfold emptyPatternTest
  rw [List.any_eq_true]
  constructor
  · rintro ⟨i, _, hi⟩
    simp only [Bool.and_eq_true, decide_eq_true_eq] at hi
    have hlen : s.length = 0 := by omega
    cases s with
    | mk data =>
      simp only [String.length, List.length_eq_zero] at hlen
      simp [hlen]
  · rintro rfl
    exact ⟨0, by simp, by simp⟩

/-- All-dot-characters consumption for a trailing `.*`. -/
theorem tmatch_star_all : ∀ (cs : List Char) (b : Bool),
    tmatch true [Tok.star] b cs = cs.all isDotChar := by
  intro cs
  induction cs with
  | nil => intro b; rfl
  | cons d cs ih =>
    intro b
    show (tmatch true [] b (d :: cs) || starConsume (tmatch true [] false) (d :: cs)) = _
    have hsc : starConsume (tmatch true [] false) (d :: cs) =
        (isDotChar d && (d :: cs).tail.all isDotChar) := by
      show (isDotChar d && (tmatch true [] false cs || starConsume (tmatch true [] false) cs)) = _
      have := ih false
      show (isDotChar d &&
        (tmatch true [] false cs || starConsume (tmatch true [] false) cs)) =
        (isDotChar d && cs.all isDotChar)
      rw [show (tmatch true [] false cs || starConsume (tmatch true [] false) cs) =
        tmatch true [Tok.star] false cs from rfl, this]
    rw [hsc]
    show (decide ((d :: cs) = []) || _) = _
    simp [List.all_cons]

/-- Consuming a literal prefix (each pattern character compared with itself)
then a trailing `.*`. -/
theorem tmatch_lits_star : ∀ (pre cs : List Char) (b : Bool),
    tmatch true (pre.map Tok.lit ++ [Tok.star]) b (pre ++ cs) = cs.all isDotChar := by
  intro pre
  induction pre with
  | nil => intro cs b; exact tmatch_star_all cs b
  | cons p ps ih =>
    intro cs b
    show (ciChar p p && tmatch true (ps.map Tok.lit ++ [Tok.star]) false (ps ++ cs)) = _
    rw [ih cs false]
    simp [ciChar]

/-- Claim C7: the root path is cacheable exactly when `/` is literally in
the include list (the exclude list is not consulted), and with
`cache_routes = ["/*"]` and `not_cache_routes = ["/admin/*"]` no path under
`/admin/` is ever cacheable. -/
theorem C7_shouldCachePath :
    (∀ (cacheRoutes notCacheRoutes : List String),
      shouldCachePath cacheRoutes notCacheRoutes "/" = cacheRoutes.contains "/") ∧
    (∀ (s : String), shouldCachePath ["/*"] ["/admin/*"] ("/admin/" ++ s) = false) := by
  constructor
  · intro cacheRoutes notCacheRoutes
    simp [shouldCachePath]
  · intro s
    have hne : ¬("/admin/" ++ s = "/") := by
      intro h
      have hd := congrArg String.data h
      have : ("/admin/" ++ s).data = '/' :: 'a' :: 'd' :: 'm' :: 'i' :: 'n' :: '/' :: s.data := rfl
      rw [this] at hd
      have := congrArg List.length hd
      simp at this
    simp only [shouldCachePath, if_neg hne]
    have hinc : compiledTest ["/*"] ("/admin/" ++ s) =
        (("admin/".data ++ s.data).all isDotChar || false) := by
      show (tmatch true (['/'].map Tok.lit ++ [Tok.star]) true
        (['/'] ++ ("admin/".data ++ s.data)) || false) = _
      rw [tmatch_lits_star]
    have hexc : compiledTest ["/admin/*"] ("/admin/" ++ s) =
        (s.data.all isDotChar || false) := by
      show (tmatch true ("/admin/".data.map Tok.lit ++ [Tok.star]) true
        ("/admin/".data ++ s.data) || false) = _
      rw [tmatch_lits_star]
    rw [hinc, hexc]
    simp only [Bool.or_false, List.all_append]
    have : "admin/".data.all isDotChar = true := by decide
    rw [this, Bool.true_and]
    cases s.data.all isDotChar <;> rfl

/-! ### Claim C6 (static asset resolution failure) -/

/-- Claim C6: a GET for a static-asset path whose securely resolved file
does not exist gets a 404 and adds nothing to the memory cache.  The path
resolution is deterministic, so a memory-cache entry for such a path (added
only when the file existed) can only name the same now-missing file; the
third hypothesis states that reachable-state fact, covering the
memory-cache-hit branch in which Bun's file response likewise reports 404. -/
theorem C6_static_asset_missing_404 (spaAbs cacheAbs : String) (mode : ServeMode)
    (cacheRoutes notCacheRoutes : List String) (limit : Nat) (fs : String → Bool)
    (mem : MapL String) (path userAgent : String)
    (hstatic : isStaticAsset path = true)
    (hfile : ∀ fp, getSecureStaticFilePath spaAbs path = some fp → fs fp = false)
    (hmem : ∀ v, lookupM mem path = some v → fs v = false) :
    (handleGet spaAbs cacheAbs mode cacheRoutes notCacheRoutes limit fs mem path userAgent).status
        = 404 ∧
    (handleGet spaAbs cacheAbs mode cacheRoutes notCacheRoutes limit fs mem path userAgent).mem
        = mem := by
  unfold handleGet
  dsimp only
  cases hb : (decide (mode = ServeMode.allClients) ||
      (decide (mode = ServeMode.crawlersOnly) && isCrawlerOrBot userAgent)) with
  | true =>
    cases hlk : lookupM mem path with
    | some v =>
      have hv : fs v = false := hmem v hlk
      exact ⟨by simp [fileStatus, hv], rfl⟩
    | none =>
      simp only [hstatic, if_true]
      match hres : getSecureStaticFilePath spaAbs path with
      | none => exact ⟨rfl, rfl⟩
      | some fp =>
        have hv : fs fp = false := hfile fp hres
        exact ⟨by simp [fileStatus, hv], by simp [hv]⟩
  | false =>
    simp only [hstatic, if_true]
    match hres : getSecureStaticFilePath spaAbs path with
    | none => exact ⟨rfl, rfl⟩
    | some fp =>
      have hv : fs fp = false := hfile fp hres
      exact ⟨by simp [fileStatus, hv], by simp [hv]⟩

/-- Witness for C6: a missing `.js` asset on an empty file system. -/
theorem C6_witness :
    (handleGet "/app/dist" "/app/dist/.sterad__cache" ServeMode.allClients ["/*"] [] 100
        (fun _ => false) [] "/missing.js" "").status = 404 ∧
    (handleGet "/app/dist" "/app/dist/.sterad__cache" ServeMode.allClients ["/*"] [] 100
        (fun _ => false) [] "/missing.js" "").mem = [] :=
  C6_static_asset_missing_404 "/app/dist" "/app/dist/.sterad__cache" ServeMode.allClients
    ["/*"] [] 100 (fun _ => false) [] "/missing.js" "" (by decide)
    (fun fp _ => rfl) (fun v h => Option.noConfusion h)

/-! ### Claim C3 (memory cache) -/

theorem hasKeyM_eq_false_iff {α : Type} (m : MapL α) (k : String) :
    hasKeyM m k = false ↔ k ∉ m.map Prod.fst := by
  simp only [hasKeyM, List.any_eq_false, decide_eq_true_eq, List.mem_map]
  constructor
  · rintro h ⟨e, he, rfl⟩
    exact h e he rfl
  · intro h e he hk
    exact h ⟨e, he, hk⟩

theorem deleteM_key_not_mem {α : Type} (m : MapL α) (k : String) :
    k ∉ (deleteM m k).map Prod.fst := by
  simp only [deleteM, List.mem_map, List.mem_filter]
  rintro ⟨e, ⟨_, he⟩, rfl⟩
  simp at he

theorem deleteM_nodup {α : Type} (m : MapL α) (k : String)
    (h : (m.map Prod.fst).Nodup) : ((deleteM m k).map Prod.fst).Nodup := by
  have hs : (deleteM m k).Sublist m := List.filter_sublist m
  exact List.Nodup.sublist (List.Sublist.map Prod.fst hs) h

theorem deleteM_length_le {α : Type} (m : MapL α) (k : String) :
    (deleteM m k).length ≤ m.length :=
  List.length_filter_le _ m

theorem deleteM_length_lt {α : Type} (m : MapL α) (k : String)
    (h : hasKeyM m k = true) : (deleteM m k).length < m.length := by
  simp only [hasKeyM, List.any_eq_true, decide_eq_true_eq] at h
  obtain ⟨e, hmem, hk⟩ := h
  have hs : (deleteM m k).Sublist m := List.filter_sublist m
  rcases Nat.lt_or_ge (deleteM m k).length m.length with hlt | hge
  · exact hlt
  · exfalso
    have heq : deleteM m k = m :=
      List.Sublist.eq_of_length hs (Nat.le_antisymm (List.Sublist.length_le hs) hge)
    have : e ∈ deleteM m k := by rw [heq]; exact hmem
    simp only [deleteM, List.mem_filter, hk] at this
    simp at this

/-- One `addToMemoryCache` keeps the size bound and key uniqueness. -/
theorem addToMemoryCache_inv {α : Type} (limit : Nat) (hlim : 1 ≤ limit)
    (m : MapL α) (k : String) (v : α) (hlen : m.length ≤ limit)
    (hnd : (m.map Prod.fst).Nodup) :
    (addToMemoryCache limit m k v).1.length ≤ limit ∧
      ((addToMemoryCache limit m k v).1.map Prod.fst).Nodup := by
  have h1len : (if hasKeyM m k then deleteM m k else m).length ≤ limit := by
    split
    · exact le_trans (deleteM_length_le m k) hlen
    · exact hlen
  have h1nd : ((if hasKeyM m k then deleteM m k else m).map Prod.fst).Nodup := by
    split
    · exact deleteM_nodup m k hnd
    · exact hnd
  have h1k : k ∉ (if hasKeyM m k then deleteM m k else m).map Prod.fst := by
    split
    · exact deleteM_key_not_mem m k
    · next h =>
      exact (hasKeyM_eq_false_iff m k).1 (Bool.eq_false_iff.mpr h)
  have h2nd : (((if hasKeyM m k then deleteM m k else m) ++ [(k, v)]).map Prod.fst).Nodup := by
    rw [List.map_append, List.nodup_append]
    refine ⟨h1nd, by simp, ?_⟩
    intro x hx hx2
    simp only [List.map_cons, List.map_nil, List.mem_singleton] at hx2
    subst hx2
    exact h1k hx
  unfold addToMemoryCache
  dsimp only
  by_cases hgt : ((if hasKeyM m k then deleteM m k else m) ++ [(k, v)]).length > limit
  · rw [if_pos hgt]
    cases hm1 : (if hasKeyM m k then deleteM m k else m) with
    | nil =>
      rw [hm1] at hgt
      simp only [List.nil_append, List.length_singleton] at hgt
      omega
    | cons e rest =>
      rw [hm1] at h1len h2nd
      simp only [List.cons_append]
      constructor
      · simp only [List.length_append, List.length_cons, List.length_singleton,
          List.length_nil] at h1len ⊢
        omega
      · simp only [List.cons_append, List.map_cons] at h2nd
        exact h2nd.of_cons
  · rw [if_neg hgt]
    exact ⟨Nat.le_of_not_lt hgt, h2nd⟩

/-- Counterexample to claim C3: with capacity 2 and the operation sequence
`add "a"`, `add "b"`, `get "a"`, the insertion of `"c"` overflows and evicts
`"a"` — but the least-recently-touched key at that moment is `"b"`, because
the `get` touched `"a"` more recently.  The GET handler's memory-cache hit
reads with `Map.get`, which does not reorder, so eviction follows insertion
order, not touch order. -/
theorem C3_counterexample :
    (addToMemoryCache 2
        (runCacheOps 2 [CacheOp.add "a" "v", CacheOp.add "b" "v", CacheOp.get "a"] [])
        "c" "v").2 = some "a" ∧
    leastRecentlyTouched [CacheOp.add "a" "v", CacheOp.add "b" "v", CacheOp.get "a"]
        ((runCacheOps 2 [CacheOp.add "a" "v", CacheOp.add "b" "v", CacheOp.get "a"] []).map
          Prod.fst) = some "b" ∧
    ¬(some "a" = some ("b" : String)) := by
  refine ⟨by decide, by decide, by decide⟩

/-- Claim C3 as amended: for every capacity of at least 1 and every sequence
of insertions and gets from the empty cache, the size never exceeds the
capacity and keys stay unique; an insertion of a new key at full capacity
evicts exactly one key, namely the least-recently-*inserted* one (the head
of the insertion order); re-insertion of an existing key moves it to the
most-recent end without duplication and without eviction; and gets leave the
cache completely unchanged (they do not refresh recency). -/
theorem C3_lru_amended (limit : Nat) (hlim : 1 ≤ limit) :
    (∀ (ops : List CacheOp), (runCacheOps limit ops []).length ≤ limit ∧
      ((runCacheOps limit ops []).map Prod.fst).Nodup) ∧
    (∀ (m : MapL String) (k : String) (v : String),
      (hasKeyM m k = false → m.length = limit →
        addToMemoryCache limit m k v = (m.tail ++ [(k, v)], m.head?.map Prod.fst)) ∧
      (hasKeyM m k = true → m.length ≤ limit →
        addToMemoryCache limit m k v = (deleteM m k ++ [(k, v)], none))) ∧
    (∀ (m : MapL String) (k : String), runCacheOps limit [CacheOp.get k] m = m) := by
  refine ⟨?_, ?_, fun m k => rfl⟩
  · have hstep : ∀ (ops : List CacheOp) (m : MapL String),
        m.length ≤ limit → (m.map Prod.fst).Nodup →
        (runCacheOps limit ops m).length ≤ limit ∧
          ((runCacheOps limit ops m).map Prod.fst).Nodup := by
      intro ops
      induction ops with
      | nil => intro m h1 h2; exact ⟨h1, h2⟩
      | cons o ops ih =>
        intro m h1 h2
        cases o with
        | add k v =>
          have := addToMemoryCache_inv limit hlim m k v h1 h2
          exact ih _ this.1 this.2
        | get k => exact ih m h1 h2
    intro ops
    exact hstep ops [] (by simp) (by simp)
  · intro m k v
    constructor
    · intro hhas hfull
      unfold addToMemoryCache
      dsimp only
      rw [hhas]
      simp only [Bool.false_eq_true, if_false]
      cases m with
      | nil =>
        simp only [List.length_nil] at hfull
        omega
      | cons e rest =>
        have hgt : ((e :: rest) ++ [(k, v)]).length > limit := by
          have h1 : ((e :: rest) ++ [(k, v)]).length = rest.length + 2 := by
            simp [List.length_append]
          have h2 : rest.length + 1 = limit := by
            simpa using hfull
          omega
        rw [if_pos hgt]
        rfl
    · intro hhas hle
      unfold addToMemoryCache
      dsimp only
      rw [hhas]
      simp only [if_true]
      have hlt : (deleteM m k).length < m.length := deleteM_length_lt m k hhas
      have hnot : ¬((deleteM m k ++ [(k, v)]).length > limit) := by
        simp only [List.length_append, List.length_singleton]
        omega
      rw [if_neg hnot]

/-- Witness for the amended C3 at capacity 2: the size bound after three
insertions, the FIFO eviction equation at full capacity, and the
re-insertion equation. -/
theorem C3_witness :
    ((runCacheOps 2 [CacheOp.add "a" "v", CacheOp.add "b" "v", CacheOp.add "c" "v"]
        []).length ≤ 2) ∧
    (addToMemoryCache 2 [("a", "u"), ("b", "v")] "c" "w" =
      ([("b", "v"), ("c", "w")], some "a")) ∧
    (addToMemoryCache 2 [("a", "u"), ("b", "v")] "a" "w" =
      ([("b", "v"), ("a", "w")], none)) := by
  have h := C3_lru_amended 2 (by decide)
  refine ⟨(h.1 [CacheOp.add "a" "v", CacheOp.add "b" "v", CacheOp.add "c" "v"]).1, ?_, ?_⟩
  · have h2 := ((h.2.1 [("a", "u"), ("b", "v")] "c" "w").1 (by decide) (by decide))
    rw [h2]
    rfl
  · have h3 := ((h.2.1 [("a", "u"), ("b", "v")] "a" "w").2 (by decide) (by decide))
    rw [h3]
    rfl

/-! ### Claim C4 (sanitize/validate round trip) -/

theorem greplace_cons_none (m : List Char → Option (List Char × Nat)) (c : Char)
    (cs : List Char) (h : m (c :: cs) = none) :
    greplace m (c :: cs) = c :: greplace m cs := by
  show greplaceF m (cs.length + 1) (c :: cs) = c :: greplaceF m cs.length cs
  simp only [greplaceF, h]

/-- A matcher that never fires leaves the input unchanged; `g` is the
`test` form of the same matcher. -/
theorem greplace_id_of_no_hit (f : List Char → Option (List Char × Nat))
    (g : List Char → Option Nat) (hfg : ∀ s, (f s).isSome = (g s).isSome) :
    ∀ (cs : List Char), scanHit g cs = false → greplace f cs = cs := by
  intro cs
  induction cs with
  | nil => intro _; rfl
  | cons c cs ih =>
    intro h
    simp only [scanHit, Bool.or_eq_false_iff] at h
    have hf : f (c :: cs) = none := by
      have := hfg (c :: cs)
      rw [h.1] at this
      exact Option.not_isSome_iff_eq_none.1 (by simp [this])
    rw [greplace_cons_none f c cs hf, ih h.2]

/-- JavaScript whitespace is never a word character. -/
theorem isJsWs_not_word (c : Char) (h : isJsWs c = true) : isWordChar c = false := by
  simp only [isJsWs, Bool.or_eq_true, decide_eq_true_eq] at h
  rcases h with ((((((h | h) | h) | h) | h) | h) | h) <;> subst h <;> decide

/-- Dropping the length of the matched `takeWhile` prefix is `dropWhile`. -/
theorem drop_takeWhile_length (p : Char → Bool) : ∀ (l : List Char),
    l.drop (l.takeWhile p).length = l.dropWhile p := by
  intro l
  induction l with
  | nil => rfl
  | cons c cs ih =>
    by_cases hc : p c
    · rw [List.takeWhile_cons_of_pos hc, List.dropWhile_cons_of_pos hc]
      simpa using ih
    · rw [List.takeWhile_cons_of_neg hc, List.dropWhile_cons_of_neg hc]
      rfl

/-- If an event-handler core match sits right after a non-empty whitespace
run, the boundary-scanned validator pattern fires as well (the whitespace
provides the word boundary). -/
theorem boundaryScan_after_ws : ∀ (run rest : List Char), run ≠ [] →
    (∀ c ∈ run, isJsWs c = true) → (onCoreAt rest).isSome = true →
    ∀ (b : Bool), boundaryScan onCoreAt b (run ++ rest) = true := by
  intro run
  induction run with
  | nil => intro rest h; exact absurd rfl h
  | cons w run ih =>
    intro rest _ hws hcore b
    have hwword : isWordChar w = false := isJsWs_not_word w (hws w (by simp))
    show ((!b && (onCoreAt (w :: (run ++ rest))).isSome) ||
      boundaryScan onCoreAt (isWordChar w) (run ++ rest)) = true
    rw [hwword]
    cases run with
    | nil =>
      simp only [List.nil_append]
      cases rest with
      | nil => simp [onCoreAt, ciStarts] at hcore
      | cons r rs =>
        have : boundaryScan onCoreAt false (r :: rs) = true := by
          show ((!false && (onCoreAt (r :: rs)).isSome) ||
            boundaryScan onCoreAt (isWordChar r) rs) = true
          rw [hcore]
          rfl
        rw [this]
        simp
    | cons w2 run2 =>
      have := ih rest (by simp) (fun c hc => hws c (by simp [hc])) hcore false
      rw [this]
      simp

/-- The whitespace-led sanitizer event pattern never fires on content on
which the boundary-scanned validator event pattern finds nothing. -/
theorem eventRepl_id : ∀ (cs : List Char) (b : Bool),
    boundaryScan onCoreAt b cs = false → greplace eventReplAt cs = cs := by
  intro cs
  induction cs with
  | nil => intro b _; rfl
  | cons c cs ih =>
    intro b h
    simp only [boundaryScan, Bool.or_eq_false_iff] at h
    have hnone : eventReplAt (c :: cs) = none := by
      by_cases hws : isJsWs c = true
      · cases hoc : onCoreAt ((c :: cs).drop ((c :: cs).takeWhile isJsWs).length) with
        | none =>
          simp only [eventReplAt, hws, if_true, hoc]
        | some k =>
          exfalso
          have hrun : (c :: cs).takeWhile isJsWs ≠ [] := by
            rw [List.takeWhile_cons_of_pos hws]
            simp
          have hsplit : (c :: cs).takeWhile isJsWs ++ (c :: cs).dropWhile isJsWs = c :: cs :=
            List.takeWhile_append_dropWhile isJsWs (c :: cs)
          have hfires := boundaryScan_after_ws ((c :: cs).takeWhile isJsWs)
            ((c :: cs).dropWhile isJsWs) hrun
            (fun x hx => List.mem_takeWhile_imp hx)
            (by rw [← drop_takeWhile_length isJsWs (c :: cs)]; rw [hoc]; rfl) b
          rw [hsplit] at hfires
          have : boundaryScan onCoreAt b (c :: cs) = false := by
            show ((!b && (onCoreAt (c :: cs)).isSome) ||
              boundaryScan onCoreAt (isWordChar c) cs) = false
            rw [h.1, h.2]
            rfl
          rw [hfires] at this
          exact absurd this (by simp)
      · simp only [eventReplAt]
        rw [if_neg hws]
    rw [greplace_cons_none _ _ _ hnone, ih (isWordChar c) h.2]

theorem ciSub_of_ciStarts (pat s : List Char) (h : ciStarts pat s = true) :
    ciSub pat s = true := by
  cases s with
  | nil => exact h
  | cons c cs => simp [ciSub, h]

theorem ciSub_tail (pat : List Char) (c : Char) (cs : List Char)
    (h : ciSub pat cs = true) : ciSub pat (c :: cs) = true := by
  simp [ciSub, h]

theorem ciSub_drop (pat : List Char) : ∀ (n : Nat) (l : List Char),
    ciSub pat (l.drop n) = true → ciSub pat l = true := by
  intro n
  induction n with
  | zero => intro l h; simpa using h
  | succ n ih =>
    intro l h
    cases l with
    | nil => simpa using h
    | cons c cs => exact ciSub_tail pat c cs (ih cs h)

/-- A successful continuation of the `javascript:` href/src pattern contains
the literal `javascript:`. -/
theorem jsHrefCont_hasJs (xs : List Char) (p : Nat × Nat)
    (h : jsHrefContAt xs = some p) : ciSub "javascript:".data xs = true := by
  unfold jsHrefContAt at h
  dsimp only at h
  split at h
  · next rest2 heq2 =>
    have hrest2 : rest2 = xs.drop ((xs.takeWhile isJsWs).length + 1) := by
      have := congrArg (List.drop 1) heq2
      rw [List.drop_drop] at this
      simpa [Nat.add_comm] using this.symm
    split at h
    · next q rest4 heq3 =>
      have hrest3 : q :: rest4 = rest2.drop (rest2.takeWhile isJsWs).length := heq3.symm
      have hrest4 : rest4 = rest2.drop ((rest2.takeWhile isJsWs).length + 1) := by
        have := congrArg (List.drop 1) hrest3
        rw [List.drop_drop] at this
        simpa [Nat.add_comm] using this
      split at h
      · split at h
        · next hjs =>
          have h4 : ciSub "javascript:".data rest4 = true :=
            ciSub_of_ciStarts _ _ hjs
          have h2 : ciSub "javascript:".data rest2 = true := by
            rw [hrest4] at h4
            exact ciSub_drop _ _ _ h4
          rw [hrest2] at h2
          exact ciSub_drop _ _ _ h2
        · simp at h
      · split at h
        · next hjs =>
          have h3 : ciSub "javascript:".data (q :: rest4) = true :=
            ciSub_of_ciStarts _ _ hjs
          have h2 : ciSub "javascript:".data rest2 = true := by
            rw [hrest3] at h3
            exact ciSub_drop _ _ _ h3
          rw [hrest2] at h2
          exact ciSub_drop _ _ _ h2
        · simp at h
    · simp at h
  · simp at h

/-- A successful candidate search of the fourth sanitizer pattern contains
the literal `javascript:`. -/
theorem jsHrefTry_hasJs : ∀ (i : Nat) (rest : List Char) (p : List Char × Nat),
    jsHrefTry rest i = some p → ciSub "javascript:".data rest = true := by
  intro i
  induction i with
  | zero => intro rest p h; simp [jsHrefTry] at h
  | succ i ih =>
    intro rest p h
    unfold jsHrefTry at h
    dsimp only at h
    split at h
    · next n hn =>
      split at h
      · next g1 full hcont =>
        have hsub := jsHrefCont_hasJs _ _ hcont
        have : ciSub "javascript:".data (rest.drop (i + 1)) = true := by
          have := ciSub_drop "javascript:".data n (rest.drop (i + 1))
          rw [List.drop_drop] at this
          rw [List.drop_drop] at hsub
          exact this (by simpa using hsub)
        exact ciSub_drop _ _ _ this
      · exact ih rest p h
    · exact ih rest p h

theorem jsHrefReplAt_no_lt (c : Char) (cs : List Char) (hc : ¬(c = '<')) :
    jsHrefReplAt (c :: cs) = none := by
  unfold jsHrefReplAt
  split
  · next rest heq =>
    injection heq with h1 _
    exact absurd h1 hc
  · rfl

/-- On content without the substring `javascript:` (case-insensitively),
the fourth sanitizer substitution never fires. -/
theorem jsHrefRepl_id : ∀ (cs : List Char),
    ciSub "javascript:".data cs = false → greplace jsHrefReplAt cs = cs := by
  intro cs
  induction cs with
  | nil => intro _; rfl
  | cons c cs ih =>
    intro h
    have hdecomp : ciStarts "javascript:".data (c :: cs) = false ∧
        ciSub "javascript:".data cs = false := by
      have : ciSub "javascript:".data (c :: cs) =
          (ciStarts "javascript:".data (c :: cs) || ciSub "javascript:".data cs) := rfl
      rw [this] at h
      exact Bool.or_eq_false_iff.mp h
    have hnone : jsHrefReplAt (c :: cs) = none := by
      by_cases hc : c = '<'
      · subst hc
        cases hjr : jsHrefReplAt ('<' :: cs) with
        | none => rfl
        | some p =>
          exfalso
          have : jsHrefTry cs (cs.takeWhile (fun x => !(x = '>'))).length = some p := hjr
          have := jsHrefTry_hasJs _ cs p this
          rw [hdecomp.2] at this
          exact absurd this (by simp)
      · exact jsHrefReplAt_no_lt c cs hc
    rw [greplace_cons_none _ _ _ hnone, ih hdecomp.2]

/-- Counterexample to claim C4: this content passes the full Trust Boundary
Validator (the tag `p` carries a harmless-looking `xhref` attribute, which
the `\bhref` pattern does not match because `xhref` has no word boundary
before `href`), yet `sanitizeHtml` finds `href` through its boundary-free
`[^>]+(?:href|src)` pattern and its lazy `javascript:.*?` deletion swallows
`>hello</p><b>world` up to the closing quote — removing a closing and an
opening tag, so re-validation fails with mismatched tags. -/
theorem C4_counterexample :
    isSafeMainContent defaultConfig
        "<p xhref=\"javascript:a>hello</p><b>world\" >more text here</b>" = true ∧
      isSafeMainContent defaultConfig
        (sanitizeHtml
          "<p xhref=\"javascript:a>hello</p><b>world\" >more text here</b>") = false := by
  constructor
  · decide
  · decide

/-- Claim C4 as amended: sanitization cannot reintroduce a rejected
construct on validated content unless the `javascript:` rewrite fires — for
every configuration and every content string that passes
`isSafeMainContent`, is already whitespace-trimmed, and does not contain the
substring `javascript:` (case-insensitively), `sanitizeHtml` returns the
content unchanged, and re-validation therefore accepts it. -/
theorem C4_sanitize_roundtrip (cfg : Config) (content : String)
    (hsafe : isSafeMainContent cfg content = true)
    (hnojs : ciSub "javascript:".data content.data = false)
    (htrim : trimJsL content.data = content.data) :
    sanitizeHtml content = content ∧
      isSafeMainContent cfg (sanitizeHtml content) = true := by
  have hsec : validateSecurityPatterns content = true := by
    simp only [isSafeMainContent, Bool.and_eq_true] at hsafe
    exact hsafe.2
  simp only [validateSecurityPatterns, Bool.and_eq_true, Bool.not_eq_true'] at hsec
  have hscript : scanHit (scriptPairAt "script".data) content.data = false :=
    hsec.1.1.1.1.1.1.1.1.1
  have hstyle : scanHit (scriptPairAt "style".data) content.data = false :=
    hsec.1.1.1.1.1.1.1.1.2
  have hevent : boundaryScan onCoreAt false content.data = false :=
    hsec.1.1.1.1.1.1.1.2
  have e1 : greplace (fun s => (scriptPairAt "script".data s).map (fun k => ([], k)))
      content.data = content.data :=
    greplace_id_of_no_hit _ (scriptPairAt "script".data)
      (fun s => by cases scriptPairAt "script".data s <;> rfl) content.data hscript
  have e2 : greplace (fun s => (scriptPairAt "style".data s).map (fun k => ([], k)))
      content.data = content.data :=
    greplace_id_of_no_hit _ (scriptPairAt "style".data)
      (fun s => by cases scriptPairAt "style".data s <;> rfl) content.data hstyle
  have e3 : greplace eventReplAt content.data = content.data :=
    eventRepl_id content.data false hevent
  have e4 : greplace jsHrefReplAt content.data = content.data :=
    jsHrefRepl_id content.data hnojs
  have hmain : sanitizeHtml content = content := by
    unfold sanitizeHtml
    dsimp only
    rw [e1, e2, e3, e4, htrim]
  refine ⟨hmain, ?_⟩
  rw [hmain]
  exact hsafe

/-- Witness for the amended C4 at a plain validated paragraph. -/
theorem C4_witness :
    isSafeMainContent defaultConfig "<p>hello</p>" = true ∧
      ciSub "javascript:".data "<p>hello</p>".data = false ∧
      trimJsL "<p>hello</p>".data = "<p>hello</p>".data ∧
      (sanitizeHtml "<p>hello</p>" = "<p>hello</p>" ∧
        isSafeMainContent defaultConfig (sanitizeHtml "<p>hello</p>") = true) :=
  ⟨by decide, by decide, by decide,
    C4_sanitize_roundtrip defaultConfig "<p>hello</p>" (by decide) (by decide) (by decide)⟩

end Sterad
